import Mathlib

/-!
Verification of the FaceBoxes / super-resolution post-processing pipeline
(`model_api`): anchor generation, score filtering, box decoding,
non-maximum suppression, detection assembly, and super-resolution plane
assembly. C++ `float` arithmetic is embedded over `ℚ` (exact arithmetic);
`exp` is kept abstract as a function parameter where the code calls it.
-/

namespace ModelApi

/-- The `Anchor` record from `utils/nms.hpp` (declaration not in the tree):
four floats `left, top, right, bottom` describing a box in
network-input-pixel space. -/
structure Anchor where
  left : ℚ
  top : ℚ
  right : ℚ
  bottom : ℚ
deriving DecidableEq, Repr, Inhabited

/-- Modelled from the spec: `Anchor::getWidth` (the accessor lives in
`utils/nms.hpp`, which is not in the tree); §3 fixes `width = right − left`. -/
def Anchor.getWidth (a : Anchor) : ℚ := a.right - a.left

/-- Modelled from the spec: `Anchor::getHeight`; §3 fixes
`height = bottom − top`. -/
def Anchor.getHeight (a : Anchor) : ℚ := a.bottom - a.top

/-- Modelled from the spec: `Anchor::getXCenter`; §3 fixes
`centerX = left + width/2`. -/
def Anchor.getXCenter (a : Anchor) : ℚ := a.left + a.getWidth / 2

/-- Modelled from the spec: `Anchor::getYCenter`; §3 fixes
`centerY = top + height/2`. -/
def Anchor.getYCenter (a : Anchor) : ℚ := a.top + a.getHeight / 2

/-- `calculateAnchors` (detection_model_faceboxes.cpp): scales the grid
offsets `vx`, `vy` by `step` and emits one anchor per `(cy, cx)` pair,
`cy` outer and `cx` inner, each of size `minSize × minSize` written as
`(left, top, right, bottom)`.  The C++ appends to a running vector; the
embedding returns the appended block. -/
def calculateAnchors (vx vy : List ℚ) (minSize : ℤ) (step : ℤ) : List Anchor :=
  let skx : ℚ := (minSize : ℚ)
  let sky : ℚ := (minSize : ℚ)
  let dense_cx := vx.map (fun x => x * (step : ℚ))
  let dense_cy := vy.map (fun y => y * (step : ℚ))
  dense_cy.flatMap (fun cy =>
    dense_cx.map (fun cx =>
      ⟨cx - (1/2 : ℚ) * skx, cy - (1/2 : ℚ) * sky,
       cx + (1/2 : ℚ) * skx, cy + (1/2 : ℚ) * sky⟩))

/-- `calculateAnchorsZeroLevel` (detection_model_faceboxes.cpp): for each
min-size `s` of level 0, picks the sub-cell offset vectors (`4` offsets when
`s == 32`, `2` when `s == 64`, the single centre otherwise) and delegates to
`calculateAnchors`. -/
def calculateAnchorsZeroLevel (fx fy : ℕ) (minSizes : List ℤ) (step : ℤ) :
    List Anchor :=
  minSizes.flatMap (fun s =>
    let vx : List ℚ :=
      if s = 32 then [(fx : ℚ), (fx : ℚ) + 1/4, (fx : ℚ) + 1/2, (fx : ℚ) + 3/4]
      else if s = 64 then [(fx : ℚ), (fx : ℚ) + 1/2]
      else [(fx : ℚ) + 1/2]
    let vy : List ℚ :=
      if s = 32 then [(fy : ℚ), (fy : ℚ) + 1/4, (fy : ℚ) + 1/2, (fy : ℚ) + 3/4]
      else if s = 64 then [(fy : ℚ), (fy : ℚ) + 1/2]
      else [(fy : ℚ) + 1/2]
    calculateAnchors vx vy s step)

/-- `ModelFaceBoxes::priorBoxes`: iterate feature-map levels `k` in order,
rows `i` outer, columns `j` inner; level 0 uses
`calculateAnchorsZeroLevel` with the whole `minSizes[0]` list, later levels
emit one centred anchor of size `minSizes[k][0]`. -/
def priorBoxes (featureMaps : List (ℕ × ℕ)) (steps : List ℤ)
    (minSizes : List (List ℤ)) : List Anchor :=
  (List.range featureMaps.length).flatMap (fun k =>
    (List.range (featureMaps.getD k (0, 0)).1).flatMap (fun i =>
      (List.range (featureMaps.getD k (0, 0)).2).flatMap (fun j =>
        if k = 0 then
          calculateAnchorsZeroLevel j i (minSizes.getD k []) (steps.getD k 0)
        else
          calculateAnchors [(j : ℚ) + 1/2] [(i : ℚ) + 1/2]
            ((minSizes.getD k []).getD 0 0) (steps.getD k 0))))

/-- `ModelFaceBoxes::prepareInputsOutputs`, anchor part: the feature map of
level `k` is `(netInputHeight / steps[k], netInputWidth / steps[k])`
(integer division). -/
def featureMapsOf (netInputWidth netInputHeight : ℕ) (steps : List ℕ) :
    List (ℕ × ℕ) :=
  steps.map (fun s => (netInputHeight / s, netInputWidth / s))

/-- An anchor written the way §4.1 of the spec describes it: centred at
`(cx, cy)` with width `w` and height `h`. -/
def anchorFromCenter (cx cy w h : ℚ) : Anchor :=
  ⟨cx - w / 2, cy - h / 2, cx + w / 2, cy + h / 2⟩

/-- The sub-cell offsets §4.1 assigns to a level-0 min-size `s`. -/
def specOffsets (s : ℤ) : List ℚ :=
  if s = 32 then [0, 1/4, 1/2, 3/4]
  else if s = 64 then [0, 1/2]
  else [1/2]

/-- §4.1, level-0 cell: for each min-size `s` and each sub-offset pair
`(oy, ox)`, an anchor centred at `((col + ox)·step, (row + oy)·step)` of
size `s × s`. -/
def specZeroLevelCell (col row : ℕ) (minSizes : List ℤ) (step : ℤ) :
    List Anchor :=
  minSizes.flatMap (fun s =>
    (specOffsets s).flatMap (fun oy =>
      (specOffsets s).map (fun ox =>
        anchorFromCenter (((col : ℚ) + ox) * (step : ℚ))
          (((row : ℚ) + oy) * (step : ℚ)) (s : ℚ) (s : ℚ))))

/-- §4.1, levels `k > 0`: one anchor per cell, centred at
`((col + ½)·step, (row + ½)·step)`, of size `minSizes[k][0]`. -/
def specUpperLevelCell (col row : ℕ) (minSize : ℤ) (step : ℤ) : List Anchor :=
  [anchorFromCenter (((col : ℚ) + 1/2) * (step : ℚ))
    (((row : ℚ) + 1/2) * (step : ℚ)) (minSize : ℚ) (minSize : ℚ)]

/-- §4.1 anchor list: levels in ascending order, rows outer, columns inner,
with the per-cell generators above. -/
def specPriorBoxes (featureMaps : List (ℕ × ℕ)) (steps : List ℤ)
    (minSizes : List (List ℤ)) : List Anchor :=
  (List.range featureMaps.length).flatMap (fun k =>
    (List.range (featureMaps.getD k (0, 0)).1).flatMap (fun i =>
      (List.range (featureMaps.getD k (0, 0)).2).flatMap (fun j =>
        if k = 0 then specZeroLevelCell j i (minSizes.getD k []) (steps.getD k 0)
        else specUpperLevelCell j i ((minSizes.getD k []).getD 0 0)
          (steps.getD k 0))))

/-- The loop of `filterScores`: `for (i = start; i < n; i += 2)`, pushing
`(i / 2, scoresPtr[i])` whenever `scoresPtr[i] > confidence_threshold`.
`n = shape[1] * shape[2]` is the flat length of the scores tensor.  The
loop is phrased with a structural `fuel` bound on the remaining iteration
count (any `fuel ≥ n` covers the whole loop, since `i` grows by 2 per
iteration), so the function reduces by kernel computation. -/
def filterScoresLoop (scoresData : List ℚ) (confidence_threshold : ℚ)
    (n : ℕ) : ℕ → ℕ → List ℕ × List ℚ
  | 0, _ => ([], [])
  | fuel + 1, i =>
    if i < n then
      let rest := filterScoresLoop scoresData confidence_threshold n fuel
        (i + 2)
      if scoresData.getD i 0 > confidence_threshold then
        (i / 2 :: rest.1, scoresData.getD i 0 :: rest.2)
      else rest
    else ([], [])

/-- `filterScores` (detection_model_faceboxes.cpp): scan the odd (foreground)
slots of the interleaved scores buffer, starting at `i = 1`, and keep
`(index, score)` pairs whose score strictly exceeds the threshold. -/
def filterScores (scoresData : List ℚ) (n : ℕ) (confidence_threshold : ℚ) :
    List ℕ × List ℚ :=
  filterScoresLoop scoresData confidence_threshold n n 1

/-- `filterBoxes` (detection_model_faceboxes.cpp): for each surviving
candidate index, read the 4 deltas at `shape[2] * i`, decode against the
anchor with the variance scaling, and emit `(left, top, right, bottom)`.
`fexp` stands for the C `exp` applied by the code. -/
def filterBoxes (boxesData : List ℚ) (shape2 : ℕ) (anchors : List Anchor)
    (validIndices : List ℕ) (variance : ℚ × ℚ) (fexp : ℚ → ℚ) : List Anchor :=
  validIndices.map (fun i =>
    let objStart := shape2 * i
    let dx := boxesData.getD objStart 0
    let dy := boxesData.getD (objStart + 1) 0
    let dw := boxesData.getD (objStart + 2) 0
    let dh := boxesData.getD (objStart + 3) 0
    let a := anchors.getD i default
    let predCtrX := dx * variance.1 * a.getWidth + a.getXCenter
    let predCtrY := dy * variance.1 * a.getHeight + a.getYCenter
    let predW := fexp (dw * variance.2) * a.getWidth
    let predH := fexp (dh * variance.2) * a.getHeight
    ⟨predCtrX - (1/2 : ℚ) * predW, predCtrY - (1/2 : ℚ) * predH,
     predCtrX + (1/2 : ℚ) * predW, predCtrY + (1/2 : ℚ) * predH⟩)

/-- Modelled from the spec: `clamp` from `utils/common.hpp` (not in the
tree); §4.5 clamps a value to a closed interval. -/
def clamp (v lo hi : ℚ) : ℚ := min (max v lo) hi

/-- Modelled from the spec: IoU (§Glossary) — overlap ratio
`area(intersection) / area(union)` of two `(left, top, right, bottom)`
boxes; the intersection is empty when the boxes do not overlap. -/
def iou (a b : Anchor) : ℚ :=
  let interW := max 0 (min a.right b.right - max a.left b.left)
  let interH := max 0 (min a.bottom b.bottom - max a.top b.top)
  let inter := interW * interH
  let areaA := (a.right - a.left) * (a.bottom - a.top)
  let areaB := (b.right - b.left) * (b.bottom - b.top)
  inter / (areaA + areaB - inter)

/-- Modelled from the spec: the §4.4 score-priority order used by `nms`
(from `utils/nms.hpp`, not in the tree) — descending score, ties broken by
lower original index. -/
def nmsPriority (scores : List ℚ) (i j : ℕ) : Prop :=
  scores.getD j 0 < scores.getD i 0 ∨
    (scores.getD i 0 = scores.getD j 0 ∧ i ≤ j)

instance (scores : List ℚ) : DecidableRel (nmsPriority scores) := by
  intro i j
  unfold nmsPriority
  infer_instance

/-- Modelled from the spec: §4.4 greedy suppression loop — keep the head of
the priority-sorted candidate list and drop every later candidate whose IoU
with it exceeds the threshold.  The recursion is phrased with a structural
`fuel` bound (any `fuel ≥` list length covers the loop, since each step
consumes at least the head), so the function reduces by kernel
computation. -/
def nmsLoop (boxes : List Anchor) (iou_threshold : ℚ) :
    ℕ → List ℕ → List ℕ
  | 0, _ => []
  | _ + 1, [] => []
  | fuel + 1, i :: rest =>
      i :: nmsLoop boxes iou_threshold fuel
        (rest.filter (fun j =>
          iou (boxes.getD i default) (boxes.getD j default) ≤ iou_threshold))

/-- Modelled from the spec: `nms(boxes, scores, iou_threshold)` from
`utils/nms.hpp` (not in the tree), per §4.4 — sort candidate indices by
descending score with ties broken by lower original index (the
`nmsPriority` order) and run the greedy suppression loop. -/
def nms (boxes : List Anchor) (scores : List ℚ) (iou_threshold : ℚ) :
    List ℕ :=
  let order := (List.range boxes.length).mergeSort
    (fun i j => decide (nmsPriority scores i j))
  nmsLoop boxes iou_threshold order.length order

/-- `DetectedObject`: final detection record (§3 Detection). -/
structure DetectedObject where
  x : ℚ
  y : ℚ
  width : ℚ
  height : ℚ
  confidence : ℚ
  labelID : ℕ
  label : String
deriving DecidableEq, Repr, Inhabited

/-- The assembly loop of `ModelFaceBoxes::postprocess` (lines 256–267): for
each kept index, rescale by `1/scaleX`, `1/scaleY` and clamp each of
`x, y, width, height` independently to the image bounds. -/
def assembleDetections (keep : List ℕ) (boxes : List Anchor)
    (scores : List ℚ) (scaleX scaleY imgWidth imgHeight : ℚ)
    (label : String) : List DetectedObject :=
  keep.map (fun i =>
    let b := boxes.getD i default
    { x := clamp (b.left / scaleX) 0 imgWidth
      y := clamp (b.top / scaleY) 0 imgHeight
      width := clamp (b.getWidth / scaleX) 0 imgWidth
      height := clamp (b.getHeight / scaleY) 0 imgHeight
      confidence := scores.getD i 0
      labelID := 0
      label := label })

/-- `ModelFaceBoxes::postprocess` line 242: the boxes tensor is read from
`outputNames[0]`. -/
def boxesTensorName (outputNames : List String) : String :=
  outputNames.getD 0 ""

/-- `ModelFaceBoxes::postprocess` line 238: the scores tensor is read from
`outputNames[1]`. -/
def scoresTensorName (outputNames : List String) : String :=
  outputNames.getD 1 ""

/-- `ModelFaceBoxes::postprocess`: read the scores tensor from the second
sorted output name and the boxes tensor from the first, filter scores,
decode boxes, suppress, and assemble, with
`scaleX = netInputWidth / imgWidth`, `scaleY = netInputHeight / imgHeight`. -/
def postprocess (outputNames : List String) (outputsData : String → List ℚ)
    (scoresLen shape2 : ℕ) (confidence_threshold iou_threshold : ℚ)
    (anchors : List Anchor) (variance : ℚ × ℚ) (fexp : ℚ → ℚ)
    (netInputWidth netInputHeight imgWidth imgHeight : ℚ)
    (labels : List String) : List DetectedObject :=
  let scoresTensor := outputsData (scoresTensorName outputNames)
  let scores := filterScores scoresTensor scoresLen confidence_threshold
  let boxesTensor := outputsData (boxesTensorName outputNames)
  let boxes := filterBoxes boxesTensor shape2 anchors scores.1 variance fexp
  let keep := nms boxes scores.2 iou_threshold
  let scaleX := netInputWidth / imgWidth
  let scaleY := netInputHeight / imgHeight
  assembleDetections keep boxes scores.2 scaleX scaleY imgWidth imgHeight
    (labels.getD 0 "")

/-- The shape facts `ModelFaceBoxes::prepareInputsOutputs` inspects, plus
the configuration the anchor generation reads. -/
structure FaceBoxesSetupInput where
  inputsCount : ℕ
  inputChannels : ℕ
  outputsCount : ℕ
  firstOutputHeight : ℕ
  netInputWidth : ℕ
  netInputHeight : ℕ
  steps : List ℕ
  minSizes : List (List ℤ)
  outputNamesRaw : List String

/-- The state `prepareInputsOutputs` leaves behind on success. -/
structure FaceBoxesSetup where
  maxProposalsCount : ℕ
  anchors : List Anchor
  outputNames : List String
deriving Repr

/-- `ModelFaceBoxes::prepareInputsOutputs`: throw on input count ≠ 1,
channel count ≠ 3 or output count ≠ 2; otherwise record
`maxProposalsCount` from the first output's CHW height, sort the output
names, build the feature maps and generate the prior boxes. -/
def prepareInputsOutputs (c : FaceBoxesSetupInput) :
    Except String FaceBoxesSetup :=
  if c.inputsCount ≠ 1 then
    .error "FaceBoxes model wrapper expects models that have only 1 input"
  else if c.inputChannels ≠ 3 then
    .error "Expected 3-channel input"
  else if c.outputsCount ≠ 2 then
    .error "FaceBoxes model wrapper expects models that have 2 outputs"
  else
    .ok { maxProposalsCount := c.firstOutputHeight
          anchors := priorBoxes
            (featureMapsOf c.netInputWidth c.netInputHeight c.steps)
            (c.steps.map Int.ofNat) c.minSizes
          outputNames := c.outputNamesRaw.mergeSort
            (fun a b => decide (a ≤ b)) }

/-- A concrete setup input (0-sized net, no levels, raw output names in
reverse-alphabetical order) used to exercise the output-name sorting. -/
def sampleSetupInput : FaceBoxesSetupInput :=
  { inputsCount := 1, inputChannels := 3, outputsCount := 2,
    firstOutputHeight := 0, netInputWidth := 0, netInputHeight := 0,
    steps := [], minSizes := [], outputNamesRaw := ["scores", "boxes"] }

/-- The state `prepareInputsOutputs` produces on `sampleSetupInput`. -/
def sampleSetupState : FaceBoxesSetup :=
  { maxProposalsCount := 0,
    anchors := priorBoxes (featureMapsOf 0 0 []) (List.map Int.ofNat []) [],
    outputNames := List.mergeSort ["scores", "boxes"]
      (fun x y => decide (x ≤ y)) }

/-- A contiguous `len`-element window of the flat output buffer starting at
`start`, as used by the `cv::Mat` plane views in
`SuperResolutionModel::postprocess`. -/
def planeSlice (data : List ℚ) (start len : ℕ) : List ℚ :=
  (data.drop start).take len

/-- `cv::threshold(..., 0.5f, 1.0f, cv::THRESH_BINARY)`: values strictly
above the threshold become `maxval`, others `0`. -/
def cvThresholdBinary (plane : List ℚ) (thresh maxval : ℚ) : List ℚ :=
  plane.map (fun v => if v > thresh then maxval else 0)

/-- `saturate_cast<uchar>`: clip an integer to `[0, 255]`. -/
def saturate255 (z : ℤ) : ℕ := (max 0 (min 255 z)).toNat

/-- `img.convertTo(img, CV_8UC1, 255)` per element: scale by 255, round
(`rnd` abstracts OpenCV's rounding) and saturate to 8 bits. -/
def convertTo8U (rnd : ℚ → ℤ) (v : ℚ) : ℕ := saturate255 (rnd (255 * v))

/-- `SuperResolutionModel::postprocess`, plane extraction: three raw planes
when the output has 3 channels, otherwise a single plane binarized with
`cv::threshold(0.5, 1.0, THRESH_BINARY)`; every plane is then converted to
8-bit with scale 255.  The final `cv::merge` interleaves the planes and is
value-preserving per pixel, so the embedding stops at the plane list. -/
def superResolutionPostprocess (outChannels outHeight outWidth : ℕ)
    (data : List ℚ) (rnd : ℚ → ℤ) : List (List ℕ) :=
  let numOfPixels := outWidth * outHeight
  let imgPlanes :=
    if outChannels = 3 then
      [planeSlice data 0 numOfPixels,
       planeSlice data numOfPixels numOfPixels,
       planeSlice data (numOfPixels * 2) numOfPixels]
    else
      [cvThresholdBinary (planeSlice data 0 numOfPixels) (1/2) 1]
  imgPlanes.map (List.map (convertTo8U rnd))

/-- §4.3's description of one decoded box: centre
`(dx·variance₀·A.width + A.centerX, dy·variance₀·A.height + A.centerY)`,
size `(exp(dw·variance₁)·A.width, exp(dh·variance₁)·A.height)`, converted
to corners as centre ∓ half size. -/
def specDecodedBox (a : Anchor) (dx dy dw dh : ℚ) (variance : ℚ × ℚ)
    (fexp : ℚ → ℚ) : Anchor :=
  anchorFromCenter
    (dx * variance.1 * a.getWidth + a.getXCenter)
    (dy * variance.1 * a.getHeight + a.getYCenter)
    (fexp (dw * variance.2) * a.getWidth)
    (fexp (dh * variance.2) * a.getHeight)

/-! ## Helper lemmas -/

theorem calculateAnchors_eq_centers (vx vy : List ℚ) (s step : ℤ) :
    calculateAnchors vx vy s step =
      vy.flatMap (fun y => vx.map (fun x =>
        anchorFromCenter (x * (step : ℚ)) (y * (step : ℚ)) (s : ℚ) (s : ℚ))) := by
  unfold calculateAnchors anchorFromCenter
  simp only [List.flatMap_map, List.map_map]
  congr 1
  funext y
  congr 1
  funext x
  simp only [Function.comp_apply]
  congr 1 <;> ring

theorem calculateAnchorsZeroLevel_eq_spec (fx fy : ℕ) (minSizes : List ℤ)
    (step : ℤ) :
    calculateAnchorsZeroLevel fx fy minSizes step =
      specZeroLevelCell fx fy minSizes step := by
  unfold calculateAnchorsZeroLevel specZeroLevelCell
  congr 1
  funext s
  simp only [calculateAnchors_eq_centers]
  by_cases h32 : s = 32
  · subst h32
    simp [specOffsets, add_zero]
  · by_cases h64 : s = 64
    · subst h64
      simp [specOffsets, h32, add_zero]
    · simp [specOffsets, h32, h64]

theorem priorBoxes_eq_spec (featureMaps : List (ℕ × ℕ)) (steps : List ℤ)
    (minSizes : List (List ℤ)) :
    priorBoxes featureMaps steps minSizes =
      specPriorBoxes featureMaps steps minSizes := by
  unfold priorBoxes specPriorBoxes
  congr 1
  funext k
  congr 1
  funext i
  congr 1
  funext j
  by_cases hk : k = 0
  · simp [hk, calculateAnchorsZeroLevel_eq_spec]
  · simp [hk, calculateAnchors_eq_centers, specUpperLevelCell]

theorem anchorFromCenter_getWidth (cx cy w h : ℚ) :
    (anchorFromCenter cx cy w h).getWidth = w := by
  unfold anchorFromCenter Anchor.getWidth
  ring

theorem anchorFromCenter_getHeight (cx cy w h : ℚ) :
    (anchorFromCenter cx cy w h).getHeight = h := by
  unfold anchorFromCenter Anchor.getHeight
  ring

theorem filterScoresLoop_spec (data : List ℚ) (t : ℚ) (m : ℕ) :
    ∀ fuel k, m - k ≤ fuel →
      filterScoresLoop data t (2 * m) fuel (2 * k + 1) =
        (((List.range' k (m - k)).filter
            (fun c => decide (t < data.getD (2 * c + 1) 0))),
         ((List.range' k (m - k)).filter
            (fun c => decide (t < data.getD (2 * c + 1) 0))).map
           (fun c => data.getD (2 * c + 1) 0)) := by
  intro fuel
  induction fuel with
  | zero =>
      intro k hk
      have hmk : m - k = 0 := Nat.le_zero.mp hk
      simp [filterScoresLoop, hmk]
  | succ fuel ih =>
      intro k hk
      by_cases hkm : k < m
      · have hi : 2 * k + 1 < 2 * m := by omega
        have hdiv : (2 * k + 1) / 2 = k := by omega
        have hrange : m - k = (m - (k + 1)) + 1 := by omega
        have h2 : 2 * k + 1 + 2 = 2 * (k + 1) + 1 := by ring
        have hrec := ih (k + 1) (by omega)
        simp only [filterScoresLoop, if_pos hi, h2, hrec, hrange,
          List.range'_succ, List.filter_cons, hdiv, decide_eq_true_eq,
          gt_iff_lt]
        split_ifs with hc
        · simp
        · rfl
      · have hi : ¬(2 * k + 1 < 2 * m) := by omega
        simp [filterScoresLoop, hi, Nat.sub_eq_zero_of_le (by omega : m ≤ k)]

theorem filterScoresLoop_mono (data : List ℚ) (n : ℕ) (t1 t2 : ℚ)
    (h12 : t1 ≤ t2) :
    ∀ fuel i x, x ∈ (filterScoresLoop data t2 n fuel i).1 →
      x ∈ (filterScoresLoop data t1 n fuel i).1 := by
  intro fuel
  induction fuel with
  | zero =>
      intro i x hx
      simp [filterScoresLoop] at hx
  | succ fuel ih =>
      intro i x hx
      simp only [filterScoresLoop, gt_iff_lt] at hx ⊢
      by_cases hi : i < n
      · rw [if_pos hi] at hx ⊢
        split_ifs at hx ⊢ with h2 h1 h1
        · rcases List.mem_cons.mp hx with h | h
          · exact List.mem_cons.mpr (Or.inl h)
          · exact List.mem_cons.mpr (Or.inr (ih _ _ h))
        · exact List.mem_cons.mpr (Or.inr (ih _ _ hx))
        · exact absurd (lt_of_le_of_lt h12 h1) h2
        · exact ih _ _ hx
      · rw [if_neg hi] at hx
        simp at hx

theorem mergeSort_pair {α : Type} (le : α → α → Bool) (a b : α) :
    List.mergeSort [a, b] le = if le a b then [a, b] else [b, a] := by
  rw [List.mergeSort]
  simp [List.merge]

/-! ## Claims -/

/-- C1: `priorBoxes` generates, per level-0 cell and per min-size `s`,
anchors at exactly the sub-offsets `{0, ¼, ½, ¾}` (16 anchors) for
`s = 32`, `{0, ½}` (4 anchors) for `s = 64`, and the single centre offset
`{½, ½}` otherwise, each of width = height = `s`; for levels `k > 0` one
anchor per cell centred at `((col + ½)·step, (row + ½)·step)` of size
`minSizes[k][0]`; and the anchors are appended level by level in ascending
order, row outer, column inner — i.e. the generated list coincides with the
§4.1 description `specPriorBoxes`. -/
theorem faceboxes_anchor_generation :
    (∀ (featureMaps : List (ℕ × ℕ)) (steps : List ℤ)
       (minSizes : List (List ℤ)),
       priorBoxes featureMaps steps minSizes =
         specPriorBoxes featureMaps steps minSizes)
    ∧ (∀ (fx fy : ℕ) (s step : ℤ),
       (calculateAnchorsZeroLevel fx fy [s] step).length =
         if s = 32 then 16 else if s = 64 then 4 else 1)
    ∧ (∀ cx cy w h : ℚ, (anchorFromCenter cx cy w h).getWidth = w ∧
       (anchorFromCenter cx cy w h).getHeight = h) := by
  refine ⟨priorBoxes_eq_spec, ?_, fun cx cy w h =>
    ⟨anchorFromCenter_getWidth cx cy w h, anchorFromCenter_getHeight cx cy w h⟩⟩
  intro fx fy s step
  by_cases h32 : s = 32
  · simp [calculateAnchorsZeroLevel, calculateAnchors, h32]
  · by_cases h64 : s = 64
    · simp [calculateAnchorsZeroLevel, calculateAnchors, h32, h64]
    · simp [calculateAnchorsZeroLevel, calculateAnchors, h32, h64]

/-- C2: for every filtered candidate, the decoded box carries the
centre/size of §4.3 converted to corners as centre ∓ half size, and with
all four deltas zero (and `exp 0 = 1`) the decoded box is exactly the
anchor. -/
theorem faceboxes_box_decode (boxesData : List ℚ) (shape2 : ℕ)
    (anchors : List Anchor) (validIndices : List ℕ) (variance : ℚ × ℚ)
    (fexp : ℚ → ℚ) (j : ℕ) (hj : j < validIndices.length) :
    (filterBoxes boxesData shape2 anchors validIndices variance fexp).getD j
        default =
      specDecodedBox (anchors.getD (validIndices.getD j 0) default)
        (boxesData.getD (shape2 * validIndices.getD j 0) 0)
        (boxesData.getD (shape2 * validIndices.getD j 0 + 1) 0)
        (boxesData.getD (shape2 * validIndices.getD j 0 + 2) 0)
        (boxesData.getD (shape2 * validIndices.getD j 0 + 3) 0)
        variance fexp
    ∧ (∀ a : Anchor, fexp 0 = 1 →
        specDecodedBox a 0 0 0 0 variance fexp = a) := by
  constructor
  · have hlen : j <
        (filterBoxes boxesData shape2 anchors validIndices variance
          fexp).length := by
      simpa [filterBoxes] using hj
    rw [List.getD_eq_getElem _ _ hlen, List.getD_eq_getElem _ _ hj]
    unfold filterBoxes specDecodedBox anchorFromCenter
    simp only [List.getElem_map]
    congr 1 <;> ring
  · intro a hexp
    obtain ⟨l, t, r, b⟩ := a
    simp only [specDecodedBox, anchorFromCenter, Anchor.getWidth,
      Anchor.getHeight, Anchor.getXCenter, Anchor.getYCenter, zero_mul, hexp]
    congr 1 <;> ring

/-- C2 witness: a concrete decode of a single zero-delta candidate. -/
theorem faceboxes_box_decode_witness :
    (0 : ℕ) < ([0] : List ℕ).length ∧
    ((filterBoxes [0, 0, 0, 0] 4 [⟨0, 0, 2, 2⟩] [0] (1/10, 1/5)
          (fun _ => 1)).getD 0 default =
        specDecodedBox ⟨0, 0, 2, 2⟩ 0 0 0 0 (1/10, 1/5) (fun _ => 1)
      ∧ (∀ a : Anchor, (fun _ => (1 : ℚ)) (0 : ℚ) = 1 →
          specDecodedBox a 0 0 0 0 (1/10, 1/5) (fun _ => 1) = a)) :=
  ⟨by decide,
   faceboxes_box_decode [0, 0, 0, 0] 4 [⟨0, 0, 2, 2⟩] [0] (1/10, 1/5)
     (fun _ => 1) 0 (by decide)⟩

theorem nmsPriority_trans (scores : List ℚ) (a b c : ℕ)
    (hab : nmsPriority scores a b) (hbc : nmsPriority scores b c) :
    nmsPriority scores a c := by
  rcases hab with h1 | ⟨e1, l1⟩ <;> rcases hbc with h2 | ⟨e2, l2⟩
  · exact Or.inl (h2.trans h1)
  · exact Or.inl (e2 ▸ h1)
  · exact Or.inl (lt_of_lt_of_eq h2 e1.symm)
  · exact Or.inr ⟨e1.trans e2, l1.trans l2⟩

theorem nmsPriority_total (scores : List ℚ) (a b : ℕ) :
    nmsPriority scores a b ∨ nmsPriority scores b a := by
  rcases lt_trichotomy (scores.getD b 0) (scores.getD a 0) with h | h | h
  · exact Or.inl (Or.inl h)
  · rcases le_total a b with hab | hba
    · exact Or.inl (Or.inr ⟨h.symm, hab⟩)
    · exact Or.inr (Or.inr ⟨h, hba⟩)
  · exact Or.inr (Or.inl h)

theorem nmsLoop_sublist (boxes : List Anchor) (thr : ℚ) :
    ∀ fuel l, List.Sublist (nmsLoop boxes thr fuel l) l := by
  intro fuel
  induction fuel with
  | zero =>
      intro l
      simp [nmsLoop]
  | succ fuel ih =>
      intro l
      cases l with
      | nil => simp [nmsLoop]
      | cons i rest =>
          simp only [nmsLoop]
          exact List.Sublist.cons₂ i ((ih _).trans (List.filter_sublist _))

/-- C3: on an interleaved `(background, foreground)` scores buffer of `m`
candidate pairs, `filterScores` keeps candidate `c` iff its foreground
score `data[2c+1]` strictly exceeds the threshold, and returns the kept
candidate indices in ascending order together with the index-aligned
foreground scores. -/
theorem faceboxes_score_filter (data : List ℚ) (t : ℚ) (m : ℕ) :
    filterScores data (2 * m) t =
      (((List.range m).filter
          (fun c => decide (t < data.getD (2 * c + 1) 0))),
       ((List.range m).filter
          (fun c => decide (t < data.getD (2 * c + 1) 0))).map
         (fun c => data.getD (2 * c + 1) 0)) := by
  unfold filterScores
  have h := filterScoresLoop_spec data t m (2 * m) 0 (by omega)
  simpa [List.range_eq_range'] using h

/-- C7: raising the confidence threshold can only shrink the kept index
set — every index kept at threshold `t2 ≥ t1` is also kept at `t1`. -/
theorem faceboxes_score_filter_monotone (data : List ℚ) (n : ℕ)
    (t1 t2 : ℚ) (h12 : t1 ≤ t2) :
    ∀ x ∈ (filterScores data n t2).1, x ∈ (filterScores data n t1).1 :=
  fun x hx => filterScoresLoop_mono data n t1 t2 h12 n 1 x hx

/-- C7 witness: index 0 survives lowering the threshold from 1 to 0 on the
buffer `[0, 2]`. -/
theorem faceboxes_score_filter_monotone_witness :
    (0 : ℚ) ≤ 1 ∧ 0 ∈ (filterScores [0, 2] 2 0).1 :=
  ⟨by decide,
   faceboxes_score_filter_monotone [0, 2] 2 0 1 (by decide) 0 (by decide)⟩

/-- C4: `nms` is the greedy suppression (the `nmsLoop` recursion: keep the
highest-priority remaining candidate, drop every remaining candidate whose
IoU with it exceeds the threshold) run on the candidate indices sorted by
descending score with ties broken by lower original index; consequently the
kept indices are a sub-sequence of that sorted order and are themselves in
descending-score (tie: lower index) order. -/
theorem faceboxes_nms (boxes : List Anchor) (scores : List ℚ) (thr : ℚ) :
    List.Sublist (nms boxes scores thr)
      ((List.range boxes.length).mergeSort
        (fun i j => decide (nmsPriority scores i j)))
    ∧ (nms boxes scores thr).Pairwise (nmsPriority scores) := by
  have hsorted : ((List.range boxes.length).mergeSort
      (fun i j => decide (nmsPriority scores i j))).Pairwise
        (nmsPriority scores) := by
    have h : ((List.range boxes.length).mergeSort
        (fun i j => decide (nmsPriority scores i j))).Pairwise
          (fun i j => decide (nmsPriority scores i j) = true) :=
      List.sorted_mergeSort
        (fun a b c h1 h2 => by
          simp only [decide_eq_true_eq] at h1 h2 ⊢
          exact nmsPriority_trans scores a b c h1 h2)
        (fun a b => by
          simp only [Bool.or_eq_true, decide_eq_true_eq]
          exact nmsPriority_total scores a b)
        (List.range boxes.length)
    simpa using h
  have hsub : List.Sublist (nms boxes scores thr)
      ((List.range boxes.length).mergeSort
        (fun i j => decide (nmsPriority scores i j))) :=
    nmsLoop_sublist boxes thr _ _
  exact ⟨hsub, hsorted.sublist hsub⟩

/-- C5: each assembled detection has `x = clamp(left/scaleX, 0, imgWidth)`,
`y = clamp(top/scaleY, 0, imgHeight)`, and `width`/`height` equal to the
scaled `right − left` / `bottom − top`, each clamped independently to the
full `[0, imgWidth]` / `[0, imgHeight]` range (not to `imgWidth − x`); in
particular `x + width ≤ imgWidth` can fail, as the concrete box
`(50, 0, 200, 10)` in a 100-wide image shows. -/
theorem faceboxes_assembly (keep : List ℕ) (boxes : List Anchor)
    (scores : List ℚ) (scaleX scaleY imgWidth imgHeight : ℚ)
    (label : String) (j : ℕ) (hj : j < keep.length) :
    ((assembleDetections keep boxes scores scaleX scaleY imgWidth imgHeight
        label).getD j default =
      { x := clamp ((boxes.getD (keep.getD j 0) default).left / scaleX) 0
          imgWidth
        y := clamp ((boxes.getD (keep.getD j 0) default).top / scaleY) 0
          imgHeight
        width := clamp (((boxes.getD (keep.getD j 0) default).right -
          (boxes.getD (keep.getD j 0) default).left) / scaleX) 0 imgWidth
        height := clamp (((boxes.getD (keep.getD j 0) default).bottom -
          (boxes.getD (keep.getD j 0) default).top) / scaleY) 0 imgHeight
        confidence := scores.getD (keep.getD j 0) 0
        labelID := 0
        label := label })
    ∧ 100 <
      ((assembleDetections [0] [⟨50, 0, 200, 10⟩] [1] 1 1 100 100
          label).getD 0 default).x +
      ((assembleDetections [0] [⟨50, 0, 200, 10⟩] [1] 1 1 100 100
          label).getD 0 default).width := by
  constructor
  · have hlen : j < (assembleDetections keep boxes scores scaleX scaleY
        imgWidth imgHeight label).length := by
      simpa [assembleDetections] using hj
    rw [List.getD_eq_getElem _ _ hlen, List.getD_eq_getElem _ _ hj]
    simp [assembleDetections, Anchor.getWidth, Anchor.getHeight]
  · norm_num [assembleDetections, clamp, Anchor.getWidth, Anchor.getHeight]

/-- C5 witness: the assembly formula at a concrete kept box. -/
theorem faceboxes_assembly_witness :
    (0 : ℕ) < ([0] : List ℕ).length ∧
    (((assembleDetections [0] [⟨0, 0, 10, 10⟩] [1] 1 1 100 100
        "Face").getD 0 default =
      { x := clamp ((([⟨0, 0, 10, 10⟩] : List Anchor).getD
          (([0] : List ℕ).getD 0 0) default).left / 1) 0 100
        y := clamp ((([⟨0, 0, 10, 10⟩] : List Anchor).getD
          (([0] : List ℕ).getD 0 0) default).top / 1) 0 100
        width := clamp (((([⟨0, 0, 10, 10⟩] : List Anchor).getD
          (([0] : List ℕ).getD 0 0) default).right -
          (([⟨0, 0, 10, 10⟩] : List Anchor).getD
            (([0] : List ℕ).getD 0 0) default).left) / 1) 0 100
        height := clamp (((([⟨0, 0, 10, 10⟩] : List Anchor).getD
          (([0] : List ℕ).getD 0 0) default).bottom -
          (([⟨0, 0, 10, 10⟩] : List Anchor).getD
            (([0] : List ℕ).getD 0 0) default).top) / 1) 0 100
        confidence := ([1] : List ℚ).getD (([0] : List ℕ).getD 0 0) 0
        labelID := 0
        label := "Face" })
    ∧ 100 <
      ((assembleDetections [0] [⟨50, 0, 200, 10⟩] [1] 1 1 100 100
          "Face").getD 0 default).x +
      ((assembleDetections [0] [⟨50, 0, 200, 10⟩] [1] 1 1 100 100
          "Face").getD 0 default).width) :=
  ⟨by decide,
   faceboxes_assembly [0] [⟨0, 0, 10, 10⟩] [1] 1 1 100 100 "Face" 0
     (by decide)⟩

/-- C6 counterexample: a configuration that passes all setup checks yet
generates 1 anchor while the declared maximum-proposal count is 5 —
`prepareInputsOutputs` succeeds, so anchor-count mismatch is not a
setup-time error. -/
theorem faceboxes_setup_accepts_anchor_mismatch :
    ((prepareInputsOutputs
        { inputsCount := 1, inputChannels := 3, outputsCount := 2,
          firstOutputHeight := 5, netInputWidth := 32, netInputHeight := 32,
          steps := [32], minSizes := [[1]],
          outputNamesRaw := ["a", "b"] }).toOption.map
      (fun st => (st.anchors.length, st.maxProposalsCount))) = some (1, 5)
    ∧ (1 : ℕ) ≠ 5 := by
  exact ⟨rfl, by decide⟩

/-- C6 amended: setup fails fast exactly on wrong input count, channel
count or output count; the generated anchor count is never compared with
the declared maximum-proposal count, so setup succeeds even when they
differ. -/
theorem faceboxes_setup_ok_iff (c : FaceBoxesSetupInput) :
    (prepareInputsOutputs c).isOk = true ↔
      (c.inputsCount = 1 ∧ c.inputChannels = 3 ∧ c.outputsCount = 2) := by
  unfold prepareInputsOutputs
  split_ifs with h1 h2 h3 <;> simp_all [Except.isOk, Except.toBool]

/-- C8: when no foreground score strictly exceeds the confidence threshold,
`postprocess` still completes and returns the empty detection list. -/
theorem faceboxes_postprocess_empty (outputNames : List String)
    (outputsData : String → List ℚ) (m shape2 : ℕ)
    (confidence_threshold iou_threshold : ℚ) (anchors : List Anchor)
    (variance : ℚ × ℚ) (fexp : ℚ → ℚ) (nw nh iw ihh : ℚ)
    (labels : List String)
    (hlow : ∀ c < m,
      (outputsData (scoresTensorName outputNames)).getD (2 * c + 1) 0 ≤
        confidence_threshold) :
    postprocess outputNames outputsData (2 * m) shape2 confidence_threshold
      iou_threshold anchors variance fexp nw nh iw ihh labels = [] := by
  have hfs : filterScores (outputsData (scoresTensorName outputNames))
      (2 * m) confidence_threshold = ([], []) := by
    unfold filterScores
    have h := filterScoresLoop_spec (outputsData (scoresTensorName
      outputNames)) confidence_threshold m (2 * m) 0 (by omega)
    have hempty : (List.range' 0 (m - 0)).filter
        (fun c => decide (confidence_threshold <
          (outputsData (scoresTensorName outputNames)).getD (2 * c + 1) 0))
        = [] := by
      rw [List.filter_eq_nil_iff]
      intro a ha
      simp only [decide_eq_true_eq, not_lt]
      exact hlow a (by simpa using List.mem_range'_1.mp ha)
    rw [show (1 : ℕ) = 2 * 0 + 1 by omega, h, hempty]
    simp
  unfold postprocess
  simp only [hfs]
  simp [filterBoxes, nms, nmsLoop, assembleDetections]

/-- C8 witness: a two-slot scores buffer whose foreground score does not
exceed the threshold yields the empty detection list. -/
theorem faceboxes_postprocess_empty_witness :
    (∀ c < 1, ((fun _ => ([0, 0] : List ℚ))
        (scoresTensorName ["a", "b"])).getD (2 * c + 1) 0 ≤ (0 : ℚ))
    ∧ postprocess ["a", "b"] (fun _ => ([0, 0] : List ℚ)) (2 * 1) 4 0 (1/2)
        [] (0, 0) (fun x => x) 1 1 1 1 ["Face"] = [] :=
  ⟨by decide,
   faceboxes_postprocess_empty ["a", "b"] (fun _ => ([0, 0] : List ℚ)) 1 4
     0 (1/2) [] (0, 0) (fun x => x) 1 1 1 1 ["Face"] (by decide)⟩

/-- C9: setup sorts the two output names, so the state's name list is
`[min a b, max a b]`; `postprocess` reads the box-delta tensor from the
first (alphabetically smaller) entry and the scores tensor from the second
(alphabetically larger) — the roles are fixed by name order alone. -/
theorem faceboxes_output_roles (c : FaceBoxesSetupInput)
    (st : FaceBoxesSetup) (a b : String)
    (hraw : c.outputNamesRaw = [a, b])
    (hok : prepareInputsOutputs c = Except.ok st) :
    st.outputNames = [min a b, max a b]
    ∧ boxesTensorName st.outputNames = min a b
    ∧ scoresTensorName st.outputNames = max a b := by
  have hnames : st.outputNames = [min a b, max a b] := by
    unfold prepareInputsOutputs at hok
    split_ifs at hok
    simp only [Except.ok.injEq] at hok
    rw [← hok, hraw]
    rw [mergeSort_pair]
    split_ifs with hle
    · simp only [decide_eq_true_eq] at hle
      rw [min_eq_left hle, max_eq_right hle]
    · have hba : b ≤ a := le_of_not_le (by simpa using hle)
      rw [min_eq_right hba, max_eq_left hba]
  exact ⟨hnames, by rw [hnames]; rfl, by rw [hnames]; rfl⟩

/-- C9 witness: a setup whose raw output names arrive as
`["scores", "boxes"]`. -/
theorem faceboxes_output_roles_witness :
    sampleSetupInput.outputNamesRaw = ["scores", "boxes"]
    ∧ (sampleSetupState.outputNames =
        [min "scores" "boxes", max "scores" "boxes"]
      ∧ boxesTensorName sampleSetupState.outputNames = min "scores" "boxes"
      ∧ scoresTensorName sampleSetupState.outputNames =
          max "scores" "boxes") :=
  ⟨rfl,
   faceboxes_output_roles sampleSetupInput sampleSetupState
     "scores" "boxes" rfl rfl⟩

/-- C10: super-resolution postprocessing binarizes a single-channel output
with threshold ½ (strictly greater becomes 1, else 0) before the 255
scaling, while a 3-channel output is converted without thresholding. -/
theorem superres_single_channel_threshold (h w : ℕ) (data : List ℚ)
    (rnd : ℚ → ℤ) :
    superResolutionPostprocess 1 h w data rnd =
      [(planeSlice data 0 (w * h)).map
        (fun v => convertTo8U rnd (if v > 1/2 then 1 else 0))]
    ∧ superResolutionPostprocess 3 h w data rnd =
      [(planeSlice data 0 (w * h)).map (convertTo8U rnd),
       (planeSlice data (w * h) (w * h)).map (convertTo8U rnd),
       (planeSlice data (w * h * 2) (w * h)).map (convertTo8U rnd)] := by
  constructor
  · simp [superResolutionPostprocess, cvThresholdBinary, List.map_map,
      Function.comp]
  · simp [superResolutionPostprocess]

end ModelApi
